import Mathlib

/-!
Shallow embedding of the Grabby download orchestrator, covering the
queue manager (src/backend/core/queue_manager.py), the engine router
(src/multi_engine_downloader.py), the event bus
(src/backend/core/event_bus.py) and the rules engine
(src/backend/core/rules_engine.py), together with theorems settling the
frozen claims about it.

Modelling conventions:
 * `datetime` values are wall-clock seconds as `Nat`; `datetime.now()`
   becomes an explicit `now : Nat` argument.
 * Python `int` bandwidth amounts are `Int`.
 * Python dicts are association lists; assignment replaces all prior
   bindings of the key, matching dict update semantics.
 * `hashlib.md5(...).hexdigest()` is modelled as an injective stand-in
   (the hashed string itself): the claims concern equality of hashes of
   normalized inputs, which md5 preserves up to collisions.
-/

namespace Grabby

/-! ### ASCII case folding (Python `str.lower` restricted to ASCII) -/

def pyLowerChar (c : Char) : Char :=
  if 'A' ≤ c ∧ c ≤ 'Z' then Char.ofNat (c.toNat + 32) else c

def pyLower (s : String) : String :=
  String.mk (s.toList.map pyLowerChar)

/-! ### Association-list dictionaries -/

def dictGet {α : Type} (l : List (String × α)) (k : String) : Option α :=
  match l.find? (fun p => p.1 = k) with
  | some p => some p.2
  | none => none

def dictSet {α : Type} (l : List (String × α)) (k : String) (v : α) :
    List (String × α) :=
  l.filter (fun p => p.1 ≠ k) ++ [(k, v)]

def dictRemove {α : Type} (l : List (String × α)) (k : String) :
    List (String × α) :=
  l.filter (fun p => p.1 ≠ k)

def dictMem {α : Type} (l : List (String × α)) (k : String) : Bool :=
  (dictGet l k).isSome

/-! ### DuplicateDetector URL normalization

`DuplicateDetector._hash_url` runs
`re.sub(r'[?&](utm_|ref|source)=[^&]*', '', url.lower())` and hashes the
result.  `stripTracking` embeds the substitution: scanning left to
right, at each literal `?` or `&` the engine tries the alternatives
`utm_=`, `ref=`, `source=` (each alternative is the literal key text
followed by the literal `=` required by the pattern) and on a match
consumes the greedy `[^&]*` value, resuming the scan after the match. -/

def tryKey (l : List Char) : Option (List Char) :=
  if l.take 5 = String.toList "utm_=" then some (l.drop 5)
  else if l.take 4 = String.toList "ref=" then some (l.drop 4)
  else if l.take 7 = String.toList "source=" then some (l.drop 7)
  else none

def dropValue : List Char → List Char
  | [] => []
  | c :: cs => if c = '&' then c :: cs else dropValue cs

/-- The scan loop, structurally recursive on a fuel bound.  Every step
consumes at least one character, so `l.length` fuel always suffices (the
fuel-exhausted branch is unreachable from `stripAux`). -/
def stripAuxF : Nat → List Char → List Char
  | 0, l => l
  | _ + 1, [] => []
  | fuel + 1, c :: cs =>
    if c = '?' ∨ c = '&' then
      match tryKey cs with
      | some rest => stripAuxF fuel (dropValue rest)
      | none => c :: stripAuxF fuel cs
    else
      c :: stripAuxF fuel cs

def stripAux (l : List Char) : List Char :=
  stripAuxF l.length l

def stripTracking (s : String) : String :=
  String.mk (stripAux s.toList)

/-- `DuplicateDetector._hash_url`: lowercase the whole URL, strip the
tracking-parameter regex matches, then hash (hash modelled injectively). -/
def hash_url (url : String) : String :=
  stripTracking (pyLower url)

def is_duplicate_url (url_hashes : List String) (url : String) : Bool :=
  url_hashes.contains (hash_url url)

/-! ### Queue data model (queue_manager.py) -/

inductive QueuePriority
  | LOW
  | NORMAL
  | HIGH
  | URGENT
deriving DecidableEq, Repr

def QueuePriority.val : QueuePriority → Nat
  | .LOW => 1
  | .NORMAL => 2
  | .HIGH => 3
  | .URGENT => 4

inductive QueueStatus
  | PENDING
  | DOWNLOADING
  | COMPLETED
  | FAILED
  | RETRYING
  | CANCELLED
  | PAUSED
deriving DecidableEq, Repr

/-- `QueueItem`: the persisted / in-memory download item.  `metadata` and
`download_options` dicts carry string values; timestamps are seconds. -/
structure QueueItem where
  id : String
  url : String
  priority : QueuePriority := .NORMAL
  status : QueueStatus := .PENDING
  created_at : Nat
  started_at : Option Nat := none
  completed_at : Option Nat := none
  retry_count : Nat := 0
  max_retries : Nat := 3
  error_message : String := ""
  metadata : List (String × String) := []
  download_options : List (String × String) := []
  bandwidth_limit : Option Int := none
  estimated_size : Option Int := none
  playlist_id : Option String := none
  playlist_index : Option Nat := none
deriving DecidableEq, Repr

/-! ### BandwidthManager -/

structure BandwidthManager where
  total_limit : Option Int := none
  allocated : Int := 0
  active_downloads : List (String × Int) := []
deriving DecidableEq, Repr

def bwGetD (l : List (String × Int)) (k : String) : Int :=
  match dictGet l k with
  | some v => v
  | none => 0

def sumVals (l : List (String × Int)) : Int :=
  (l.map Prod.snd).sum

/-- `BandwidthManager.can_allocate`. -/
def BandwidthManager.can_allocate (bm : BandwidthManager) (item_id : String)
    (requested : Int) : Bool :=
  match bm.total_limit with
  | none => true
  | some lim =>
    let current_usage := bm.allocated - bwGetD bm.active_downloads item_id
    current_usage + requested ≤ lim

/-- `BandwidthManager.allocate`: returns the success flag and the updated
manager (`self.allocated = sum(self.active_downloads.values())`). -/
def BandwidthManager.allocate (bm : BandwidthManager) (item_id : String)
    (amount : Int) : Bool × BandwidthManager :=
  if bm.can_allocate item_id amount then
    let active := dictSet bm.active_downloads item_id amount
    (true, { bm with active_downloads := active, allocated := sumVals active })
  else
    (false, bm)

/-- `BandwidthManager.release`. -/
def BandwidthManager.release (bm : BandwidthManager) (item_id : String) :
    BandwidthManager :=
  if dictMem bm.active_downloads item_id then
    let active := dictRemove bm.active_downloads item_id
    { bm with active_downloads := active, allocated := sumVals active }
  else
    bm

/-- An arbitrary call to the bandwidth ledger: `allocate(item, amount)`
or `release(item)`. -/
inductive BWOp
  | alloc (item_id : String) (amount : Int)
  | release (item_id : String)
deriving DecidableEq, Repr

def bwStep (bm : BandwidthManager) : BWOp → BandwidthManager
  | .alloc i a => (bm.allocate i a).2
  | .release i => bm.release i

/-- Run a sequence of allocate/release calls against the ledger. -/
def bwRun (bm : BandwidthManager) (ops : List BWOp) : BandwidthManager :=
  ops.foldl bwStep bm

/-- A bandwidth reservation request is a nonnegative byte rate. -/
def bwNonneg : BWOp → Bool
  | .alloc _ a => decide (0 ≤ a)
  | .release _ => true

/-- The ledger invariant behind C7: the cap is set, `allocated` caches
the ledger sum, keys are unique, reservations are nonnegative, and the
sum fits under the cap. -/
def bwInv (cap : Int) (bm : BandwidthManager) : Prop :=
  bm.total_limit = some cap
  ∧ bm.allocated = sumVals bm.active_downloads
  ∧ (bm.active_downloads.map Prod.fst).Nodup
  ∧ (∀ p ∈ bm.active_downloads, 0 ≤ p.2)
  ∧ sumVals bm.active_downloads ≤ cap

/-- A sequence of ledger calls for the C7 witness. -/
def c7ops : List BWOp :=
  [.alloc "a" 600, .alloc "b" 500, .release "a", .alloc "b" 700]

/-! ### RetryManager -/

/-- `RetryManager`: backoff state.  `base_delay`/`max_delay` default to
1.0 and 300.0 seconds; `retry_times` maps item ids to the next-attempt
wall-clock time. -/
structure RetryManager where
  base_delay : Nat := 1
  max_delay : Nat := 300
  retry_times : List (String × Nat) := []
deriving DecidableEq, Repr

/-- `RetryManager.should_retry`. -/
def RetryManager.should_retry (rm : RetryManager) (item : QueueItem)
    (now : Nat) : Bool :=
  if item.retry_count ≥ item.max_retries then false
  else
    match dictGet rm.retry_times item.id with
    | some next_retry => now ≥ next_retry
    | none => true

/-- `RetryManager.schedule_retry`: records the next-attempt time
`now + min(base_delay * 2^retry_count, max_delay)`, then increments the
item's `retry_count` and sets its status to RETRYING. -/
def RetryManager.schedule_retry (rm : RetryManager) (item : QueueItem)
    (now : Nat) : RetryManager × QueueItem :=
  let delay := min (rm.base_delay * 2 ^ item.retry_count) rm.max_delay
  ({ rm with retry_times := dictSet rm.retry_times item.id (now + delay) },
   { item with retry_count := item.retry_count + 1, status := .RETRYING })

/-! ### EnhancedQueueManager

State of `EnhancedQueueManager`.  The Python priority heap holds the item
objects themselves, shared with the `items` dict; the embedding keeps item
ids in `priority_queue` and `active_downloads` and reads the current item
state through `items`, which models that sharing.  Statistics counters the
claims mention are kept; Redis persistence is write-through and does not
affect in-memory behaviour, so `_save_item_to_redis` is not modelled;
`_load_from_redis` is modelled as a fold over the decoded persisted items. -/

structure EnhancedQueueManager where
  max_concurrent : Nat := 3
  bandwidth_manager : BandwidthManager := {}
  url_hashes : List String := []
  title_hashes : List String := []
  retry_manager : RetryManager := {}
  priority_queue : List String := []
  items : List (String × QueueItem) := []
  active_downloads : List String := []
  stats_total_added : Nat := 0
  stats_total_completed : Nat := 0
  stats_total_failed : Nat := 0
  stats_duplicates_skipped : Nat := 0
deriving DecidableEq, Repr

/-- Heap ordering key from `QueueItem.__lt__`: higher priority first,
then earlier `created_at` first; encoded so lexicographic `<` on the key
matches `__lt__`.  An id no longer present in `items` (possible in the
code only after `clear_completed`, which none of the embedded operations
perform) is keyed after every live entry. -/
def queueKey (items : List (String × QueueItem)) (iid : String) : Nat × Nat :=
  match dictGet items iid with
  | some it => (4 - it.priority.val, it.created_at)
  | none => (5, 0)

def keyLt : Nat × Nat → Nat × Nat → Bool
  | (a1, a2), (b1, b2) => a1 < b1 || (a1 = b1 && a2 < b2)

/-- `heapq.heappop`: remove and return a minimal element under
`QueueItem.__lt__` (ties resolved to the earliest-inserted entry, one of
the orders the unstable heap admits). -/
def popMin (items : List (String × QueueItem)) :
    List String → Option (String × List String)
  | [] => none
  | x :: xs =>
    match popMin items xs with
    | none => some (x, [])
    | some (y, rest) =>
      if keyLt (queueKey items y) (queueKey items x) then
        some (y, x :: rest)
      else
        some (x, xs)

/-- Stand-in for `hashlib.md5(f"{url}{time.time()}").hexdigest()[:12]`:
an id derived injectively from the url and the current time. -/
def genId (url : String) (now : Nat) : String :=
  url ++ "#" ++ toString now

/-- `EnhancedQueueManager.add_item`.  `detectPl` abstracts
`PlaylistDetector.detect_playlist` / `extract_playlist_id` (string
pattern matching no claim depends on): it yields the playlist id the
code would store, `none` for a non-playlist URL. -/
def add_item (mgr : EnhancedQueueManager) (url : String)
    (priority : QueuePriority) (download_options : List (String × String))
    (skip_duplicates : Bool) (detectPl : String → Option String)
    (now : Nat) : Option String × EnhancedQueueManager :=
  if skip_duplicates && is_duplicate_url mgr.url_hashes url then
    (none, { mgr with
      stats_duplicates_skipped := mgr.stats_duplicates_skipped + 1 })
  else
    let item_id := genId url now
    let item : QueueItem :=
      { id := item_id, url := url, priority := priority,
        created_at := now, download_options := download_options,
        playlist_id := detectPl url }
    (some item_id, { mgr with
      priority_queue := mgr.priority_queue ++ [item_id],
      items := dictSet mgr.items item_id item,
      url_hashes := mgr.url_hashes ++ [hash_url url],
      stats_total_added := mgr.stats_total_added + 1 })

/-- The `while self.priority_queue` loop of `get_next_item`, with fuel.
Exhausted fuel returns `none` with the state as reached; in the code the
corresponding situation is the loop spinning on a not-yet-due RETRYING
item until the wall clock advances. -/
def getNextLoop (now : Nat) :
    Nat → EnhancedQueueManager → Option QueueItem × EnhancedQueueManager
  | 0, mgr => (none, mgr)
  | fuel + 1, mgr =>
    match popMin mgr.items mgr.priority_queue with
    | none => (none, mgr)
    | some (iid, rest) =>
      let mgr1 := { mgr with priority_queue := rest }
      match dictGet mgr1.items iid with
      | none => getNextLoop now fuel mgr1
      | some item =>
        if mgr1.active_downloads.contains iid then
          getNextLoop now fuel mgr1
        else if item.status = .RETRYING
            ∧ ¬ mgr1.retry_manager.should_retry item now then
          getNextLoop now fuel { mgr1 with priority_queue := rest ++ [iid] }
        else
          let bandwidth_needed := item.bandwidth_limit.getD (1024 * 1024)
          if ¬ mgr1.bandwidth_manager.can_allocate iid bandwidth_needed then
            (none, { mgr1 with priority_queue := rest ++ [iid] })
          else
            let bm := (mgr1.bandwidth_manager.allocate iid bandwidth_needed).2
            let item' := { item with
              status := .DOWNLOADING
              started_at := some now }
            (some item', { mgr1 with
              bandwidth_manager := bm,
              active_downloads := mgr1.active_downloads ++ [iid],
              items := dictSet mgr1.items iid item' })

/-- `EnhancedQueueManager.get_next_item`. -/
def get_next_item (mgr : EnhancedQueueManager) (now : Nat) :
    Option QueueItem × EnhancedQueueManager :=
  if mgr.active_downloads.length ≥ mgr.max_concurrent then
    (none, mgr)
  else
    getNextLoop now (mgr.priority_queue.length + 1) mgr

/-- `EnhancedQueueManager.pause_item`: unconditionally sets the status of
an existing item to PAUSED. -/
def pause_item (mgr : EnhancedQueueManager) (item_id : String) :
    EnhancedQueueManager :=
  match dictGet mgr.items item_id with
  | none => mgr
  | some item =>
    { mgr with
      items := dictSet mgr.items item_id ({ item with status := .PAUSED }) }

/-- `EnhancedQueueManager.resume_item`. -/
def resume_item (mgr : EnhancedQueueManager) (item_id : String) :
    EnhancedQueueManager :=
  match dictGet mgr.items item_id with
  | none => mgr
  | some item =>
    if item.status = .PAUSED then
      { mgr with
        items := dictSet mgr.items item_id ({ item with status := .PENDING }),
        priority_queue := mgr.priority_queue ++ [item_id] }
    else
      mgr

/-- `EnhancedQueueManager.cancel_item`: returns the success flag and the
updated state.  On any existing item it releases bandwidth if active,
sets status CANCELLED and overwrites `completed_at` with the current
time. -/
def cancel_item (mgr : EnhancedQueueManager) (item_id : String)
    (now : Nat) : Bool × EnhancedQueueManager :=
  match dictGet mgr.items item_id with
  | none => (false, mgr)
  | some item =>
    let mgr1 :=
      if mgr.active_downloads.contains item_id then
        { mgr with
          bandwidth_manager := mgr.bandwidth_manager.release item_id,
          active_downloads := mgr.active_downloads.filter (· ≠ item_id) }
      else
        mgr
    (true, { mgr1 with
      items :=
        dictSet mgr1.items item_id
          ({ item with
             status := .CANCELLED
             completed_at := some now }) })

/-- One iteration of the `_load_from_redis` loop: insert the decoded item
into `items`, then push PENDING items onto the priority queue and place
DOWNLOADING items into `active_downloads`; every other status is loaded
without queueing. -/
def loadItem (mgr : EnhancedQueueManager) (item : QueueItem) :
    EnhancedQueueManager :=
  let mgr1 := { mgr with items := dictSet mgr.items item.id item }
  if item.status = .PENDING then
    { mgr1 with priority_queue := mgr1.priority_queue ++ [item.id] }
  else if item.status = .DOWNLOADING then
    { mgr1 with active_downloads := mgr1.active_downloads ++ [item.id] }
  else
    mgr1

/-- `EnhancedQueueManager._load_from_redis`, over the decoded persisted
items (Redis keys are unique, so ids are pairwise distinct). -/
def load_from_redis (mgr : EnhancedQueueManager)
    (persisted : List QueueItem) : EnhancedQueueManager :=
  persisted.foldl loadItem mgr

/-! ### Engine router (multi_engine_downloader.py)

`MultiEngineDownloader` holds one adapter per `EngineType`; which adapters
are available (`engine.is_available`, probed from installed binaries) and
which URLs each adapter's `can_handle` accepts are environment facts, so
the embedding carries them as fields of the router state. -/

inductive EngineType
  | YT_DLP_ARIA2
  | STREAMLINK
  | GALLERY_DL
  | RIPME
  | AUTO
deriving DecidableEq, Repr

structure MultiEngineDownloader where
  available : EngineType → Bool
  canHandle : EngineType → String → Bool

/-- The fixed auto-selection order of `select_engine`: specialized tools
first (live streams, then galleries, then image rips), the general video
extractor as fallback. -/
def priority_order : List EngineType :=
  [.STREAMLINK, .GALLERY_DL, .RIPME, .YT_DLP_ARIA2]

/-- `MultiEngineDownloader.select_engine`. -/
def select_engine (m : MultiEngineDownloader) (url : String)
    (preferred : EngineType) : Option EngineType :=
  if preferred ≠ .AUTO ∧ m.available preferred ∧ m.canHandle preferred url
  then
    some preferred
  else
    priority_order.find? (fun e => m.available e && m.canHandle e url)

/-! ### Event bus (event_bus.py)

Handlers are identified by their ids (`EventHandler.id`); what a handler's
callback does is irrelevant to dispatch.  `EventType` is the full enum of
the code. -/

inductive EventType
  | DOWNLOAD_QUEUED | DOWNLOAD_STARTED | DOWNLOAD_PROGRESS
  | DOWNLOAD_COMPLETED | DOWNLOAD_FAILED | DOWNLOAD_CANCELLED
  | DOWNLOAD_PAUSED | DOWNLOAD_RESUMED
  | QUEUE_ITEM_ADDED | QUEUE_ITEM_REMOVED | QUEUE_STATUS_CHANGED
  | QUEUE_CLEARED
  | PLAYLIST_STARTED | PLAYLIST_ITEM_COMPLETED | PLAYLIST_COMPLETED
  | PLAYLIST_FAILED
  | PLUGIN_LOADED | PLUGIN_UNLOADED | PLUGIN_ERROR
  | POST_PROCESS_STARTED | POST_PROCESS_COMPLETED | POST_PROCESS_FAILED
  | SYSTEM_STARTUP | SYSTEM_SHUTDOWN | SYSTEM_ERROR | SETTINGS_CHANGED
  | ENGINE_SELECTED | ENGINE_SWITCHED | ENGINE_ERROR
  | DATABASE_CONNECTED | DATABASE_DISCONNECTED
  | RECORD_CREATED | RECORD_UPDATED | RECORD_DELETED
deriving DecidableEq, Repr

structure Event where
  id : String
  type : EventType
  source : String
  timestamp : Nat
deriving DecidableEq, Repr

structure EventBus where
  handlers : EventType → List String
  wildcard_handlers : List String
  filters : List (Event → Bool)

/-- `_handle_event` executes `self.handlers.get(event.type, []) +
self.wildcard_handlers`: the handlers a dispatched event is delivered
to. -/
def handle_event_handlers (bus : EventBus) (e : Event) : List String :=
  bus.handlers e.type ++ bus.wildcard_handlers

/-- `publish`: the handlers actually invoked for a published event —
empty when some filter rejects the event (publish returns before
dispatch), otherwise exactly the `_handle_event` list. -/
def publish_handlers (bus : EventBus) (e : Event) : List String :=
  if bus.filters.all (fun f => f e) then handle_event_handlers bus e else []

/-- The events of a published trace that a given subscriber observes:
those the bus dispatches to a handler list containing it. -/
def observed (bus : EventBus) (hid : String) (trace : List Event) :
    List Event :=
  trace.filter (fun e => (publish_handlers bus e).contains hid)

/-! ### Rules engine (rules_engine.py)

`Rule.matches` evaluates `condition.evaluate(context)` for each condition;
condition evaluation (tag extraction plus operator comparison) is
abstracted as the parameter `evalC`, since the claim about `matches`
quantifies over it. -/

structure Rule (C A : Type) where
  id : String
  name : String
  description : String
  conditions : List C
  actions : List A
  enabled : Bool := true
  priority : Int := 0
  condition_logic : String := "AND"

/-- `Rule.matches`: disabled rules and rules with an empty conditions
list never match; otherwise OR takes `any`, every other combinator value
takes `all` over the evaluated conditions. -/
def Rule.matches {C A Ctx : Type} (evalC : C → Ctx → Bool)
    (r : Rule C A) (context : Ctx) : Bool :=
  if !r.enabled || r.conditions.isEmpty then false
  else
    let results := r.conditions.map (fun c => evalC c context)
    if r.condition_logic = "OR" then results.any (fun b => b)
    else results.all (fun b => b)

/-! ### Concrete instances used by witnesses and counterexamples -/

/-- A rule with actions but no conditions (for the C10 witness). -/
def ruleW : Rule Nat Nat :=
  { id := "r1", name := "no-cond", description := "", conditions := [],
    actions := [0], enabled := true, condition_logic := "AND" }

/-- A router with every adapter available and accepting (C8 witness). -/
def mW : MultiEngineDownloader :=
  { available := fun _ => true, canHandle := fun _ _ => true }

/-- A router with no adapter available (C8 witness). -/
def mN : MultiEngineDownloader :=
  { available := fun _ => false, canHandle := fun _ _ => true }

/-- A bus with one specific-type handler and one wildcard handler, no
filters (C9 witness). -/
def busW : EventBus :=
  { handlers := fun _ => ["s"], wildcard_handlers := ["w"], filters := [] }

def evW : Event :=
  { id := "e1", type := .DOWNLOAD_QUEUED, source := "t", timestamp := 0 }

/-- C1 scenario, first call: add the URL with a `utm_source` tracking
parameter appended. -/
def c1_first : Option String × EnhancedQueueManager :=
  add_item {} "https://host.example/v/abc?utm_source=x" .NORMAL [] true
    (fun _ => none) 100

/-- C1 scenario, second call: add the bare URL with
`skip_duplicates=True`. -/
def c1_second : Option String × EnhancedQueueManager :=
  add_item c1_first.2 "https://host.example/v/abc" .NORMAL [] true
    (fun _ => none) 101

/-- C3 scenario: add one item... -/
def c3_added : Option String × EnhancedQueueManager :=
  add_item {} "https://site.example/v/1" .NORMAL [] true (fun _ => none) 100

/-- ...pause it... -/
def c3_paused : EnhancedQueueManager :=
  pause_item c3_added.2 "https://site.example/v/1#100"

/-- ...then ask the scheduler for the next item. -/
def c3_next : Option QueueItem × EnhancedQueueManager :=
  get_next_item c3_paused 200

/-- A terminal (COMPLETED) item, for the C4 counterexample. -/
def itC : QueueItem :=
  { id := "a", url := "https://x.example/1", status := .COMPLETED,
    created_at := 0, completed_at := some 50 }

def mC : EnhancedQueueManager := { items := [("a", itC)] }

/-- An already-CANCELLED item, for the C5 counterexample. -/
def itX : QueueItem :=
  { id := "x", url := "https://x.example/2", status := .CANCELLED,
    created_at := 0, completed_at := some 60 }

def mX : EnhancedQueueManager := { items := [("x", itX)] }

/-- An item persisted while DOWNLOADING, for the C2 counterexample. -/
def itD : QueueItem :=
  { id := "d", url := "https://x.example/3", status := .DOWNLOADING,
    created_at := 0, started_at := some 5 }

/-! ## Theorems

Helper lemmas about the dictionary model, then one theorem per claim. -/

theorem find?_filter_of_imp {α : Type} (p q : α → Bool) (l : List α)
    (h : ∀ x, p x = true → q x = true) :
    List.find? p (l.filter q) = List.find? p l := by
  induction l with
  | nil => simp
  | cons a l ih =>
    by_cases hq : q a = true
    · by_cases hp : p a = true
      · rw [List.filter_cons_of_pos hq, List.find?_cons_of_pos _ hp,
          List.find?_cons_of_pos _ hp]
      · rw [List.filter_cons_of_pos hq, List.find?_cons_of_neg _ hp,
          List.find?_cons_of_neg _ hp, ih]
    · have hp : ¬ p a = true := fun hpa => hq (h a hpa)
      rw [List.filter_cons_of_neg hq, List.find?_cons_of_neg _ hp, ih]

theorem dictGet_set_self {α : Type} (l : List (String × α)) (k : String)
    (v : α) : dictGet (dictSet l k v) k = some v := by
  unfold dictGet dictSet
  rw [List.find?_append]
  have h1 : List.find? (fun p => decide (p.1 = k))
      (l.filter (fun p => decide (p.1 ≠ k))) = none := by
    rw [List.find?_eq_none]
    intro x hx
    have := (List.mem_filter.mp hx).2
    simp at this ⊢
    exact this
  rw [h1]
  simp

theorem dictGet_set_ne {α : Type} (l : List (String × α)) (k k' : String)
    (v : α) (h : k' ≠ k) : dictGet (dictSet l k v) k' = dictGet l k' := by
  unfold dictGet dictSet
  rw [List.find?_append]
  have h2 : List.find? (fun p => decide (p.1 = k')) [(k, v)] = none := by
    simp
    exact fun e => h e.symm
  rw [h2]
  have h3 : List.find? (fun p => decide (p.1 = k'))
      (l.filter (fun p => decide (p.1 ≠ k))) =
      List.find? (fun p => decide (p.1 = k')) l := by
    apply find?_filter_of_imp
    intro x hx
    simp at hx ⊢
    rw [hx]
    exact h
  rw [h3]
  cases List.find? (fun p => decide (p.1 = k')) l <;> simp

/-- C6: `should_retry` returns true iff `retry_count < max_retries` and
either no next-attempt timestamp is scheduled or the clock is at or past
it; `schedule_retry` sets the next-attempt timestamp to
`now + min(base * 2^retry_count, cap)` and increments `retry_count`; the
default base is 1 second and the default cap 300 seconds. -/
theorem C6_retry_policy_contract (rm : RetryManager) (item : QueueItem)
    (now : Nat) :
    (rm.should_retry item now = true ↔
      item.retry_count < item.max_retries ∧
        (dictGet rm.retry_times item.id = none ∨
          ∃ t, dictGet rm.retry_times item.id = some t ∧ t ≤ now))
    ∧ dictGet (rm.schedule_retry item now).1.retry_times item.id =
        some (now + min (rm.base_delay * 2 ^ item.retry_count) rm.max_delay)
    ∧ (rm.schedule_retry item now).2.retry_count = item.retry_count + 1
    ∧ ({} : RetryManager).base_delay = 1
    ∧ ({} : RetryManager).max_delay = 300 := by
  refine ⟨?_, ?_, rfl, rfl, rfl⟩
  · unfold RetryManager.should_retry
    constructor
    · intro htrue
      by_cases hc : item.retry_count ≥ item.max_retries
      · rw [if_pos hc] at htrue
        exact absurd htrue (by simp)
      · rw [if_neg hc] at htrue
        refine ⟨by omega, ?_⟩
        cases hfind : dictGet rm.retry_times item.id with
        | none => exact Or.inl rfl
        | some t =>
          rw [hfind] at htrue
          exact Or.inr ⟨t, rfl, by simpa using htrue⟩
    · rintro ⟨hlt, hor⟩
      rw [if_neg (by omega)]
      cases hfind : dictGet rm.retry_times item.id with
      | none => rfl
      | some t =>
        rcases hor with hnone | ⟨t', ht', hle⟩
        · rw [hfind] at hnone
          exact absurd hnone (by simp)
        · rw [hfind] at ht'
          cases ht'
          simpa using hle
  · unfold RetryManager.schedule_retry
    exact dictGet_set_self _ _ _

/-- C8: `select_engine` returns the preferred adapter when it is given
(not AUTO), available, and accepts the URL; otherwise it returns the
first available adapter accepting the URL in the fixed order streamlink,
gallery-dl, ripme, yt-dlp+aria2c; and it returns none when no available
adapter accepts the URL. -/
theorem C8_select_engine_policy (m : MultiEngineDownloader) (url : String)
    (preferred : EngineType) :
    (preferred ≠ .AUTO → m.available preferred = true →
        m.canHandle preferred url = true →
        select_engine m url preferred = some preferred)
    ∧ (¬ (preferred ≠ .AUTO ∧ m.available preferred = true ∧
          m.canHandle preferred url = true) →
        select_engine m url preferred =
          priority_order.find? (fun e => m.available e && m.canHandle e url))
    ∧ ((∀ e ∈ priority_order,
          ¬ (m.available e = true ∧ m.canHandle e url = true)) →
        select_engine m url preferred = none) := by
  refine ⟨?_, ?_, ?_⟩
  · intro h1 h2 h3
    unfold select_engine
    rw [if_pos ⟨h1, h2, h3⟩]
  · intro h
    unfold select_engine
    rw [if_neg h]
  · intro h
    unfold select_engine
    have hfind : priority_order.find?
        (fun e => m.available e && m.canHandle e url) = none := by
      rw [List.find?_eq_none]
      intro e he
      have := h e he
      simp at this ⊢
      intro hav
      exact this hav
    by_cases hp : preferred ≠ .AUTO ∧ m.available preferred = true ∧
        m.canHandle preferred url = true
    · exfalso
      have hmem : preferred ∈ priority_order := by
        cases preferred <;> simp [priority_order]
        exact hp.1 rfl
      exact h preferred hmem ⟨hp.2.1, hp.2.2⟩
    · rw [if_neg hp]
      exact hfind

/-- C8 witness: a fully-available router returns the preferred ripme
adapter; a router with no available adapter returns none. -/
theorem C8_select_engine_policy_witness :
    select_engine mW "https://img.example/g" .RIPME = some .RIPME ∧
    select_engine mN "https://img.example/g" .AUTO = none :=
  ⟨(C8_select_engine_policy mW "https://img.example/g" .RIPME).1
      (by decide) rfl rfl,
   (C8_select_engine_policy mN "https://img.example/g" .AUTO).2.2
      (by intro e he; simp [mN])⟩

/-- C9: every event the bus dispatches (all filters pass) is delivered
to every wildcard handler, and over any published trace the events a
wildcard subscriber observes are a superset of those any specific-type
subscriber observes. -/
theorem C9_wildcard_superset (bus : EventBus) (hid : String)
    (hw : hid ∈ bus.wildcard_handlers) :
    (∀ e : Event, bus.filters.all (fun f => f e) = true →
        hid ∈ publish_handlers bus e)
    ∧ (∀ (hs : String) (trace : List Event),
        observed bus hs trace ⊆ observed bus hid trace) := by
  constructor
  · intro e hf
    unfold publish_handlers
    rw [if_pos hf]
    exact List.mem_append_right _ hw
  · intro hs trace e he
    unfold observed at he ⊢
    have hm := List.mem_filter.mp he
    refine List.mem_filter.mpr ⟨hm.1, ?_⟩
    have hp := hm.2
    by_cases hf : bus.filters.all (fun f => f e) = true
    · have hpub : publish_handlers bus e = handle_event_handlers bus e := by
        unfold publish_handlers
        rw [if_pos hf]
      rw [hpub]
      exact List.elem_iff.mpr (List.mem_append_right _ hw)
    · exfalso
      have hpub : publish_handlers bus e = [] := by
        unfold publish_handlers
        rw [if_neg hf]
      rw [hpub] at hp
      simp at hp

/-- C9 witness: on a bus with wildcard handler "w" and no filters, a
queued event is delivered to "w". -/
theorem C9_wildcard_superset_witness : "w" ∈ publish_handlers busW evW :=
  (C9_wildcard_superset busW "w" (by simp [busW])).1 evW rfl

/-- C10: a rule whose conditions list is empty never matches any
context, even when enabled and under the AND combinator. -/
theorem C10_empty_conditions_never_match {C A Ctx : Type}
    (evalC : C → Ctx → Bool) (r : Rule C A) (context : Ctx)
    (h : r.conditions = []) :
    Rule.matches evalC r context = false := by
  unfold Rule.matches
  simp [h]

/-- C10 witness: the enabled AND-rule with no conditions does not match
the context 0. -/
theorem C10_empty_conditions_never_match_witness :
    Rule.matches (fun _ _ => true) ruleW 0 = false :=
  C10_empty_conditions_never_match (fun _ _ => true) ruleW 0 rfl

/-- C1: the regex `[?&](utm_|ref|source)=[^&]*` requires `=` directly
after `utm_`, so `utm_source=x` is never stripped while `ref=x` is.
Adding the URL with `?utm_source=x` and then the bare URL with
skip_duplicates leaves two tracked items and the second add returns a
fresh id rather than the duplicate-skipped None. -/
theorem C1_tracking_param_not_stripped :
    hash_url "https://host.example/v/abc?utm_source=x" ≠
      hash_url "https://host.example/v/abc"
    ∧ hash_url "https://host.example/v/abc?ref=x" =
      hash_url "https://host.example/v/abc"
    ∧ c1_second.1.isSome = true
    ∧ c1_second.2.items.length = 2
    ∧ c1_second.2.stats_duplicates_skipped = 0 := by decide

/-- C2 counterexample: loading a store holding one item persisted in
DOWNLOADING yields that item still in DOWNLOADING (not PENDING) with its
`started_at` preserved, placed in `active_downloads` and not on the
pending queue. -/
theorem C2_downloading_kept_counterexample :
    itD.status = .DOWNLOADING
    ∧ itD.started_at = some 5
    ∧ dictGet (load_from_redis {} [itD]).items "d" = some itD
    ∧ (dictGet (load_from_redis {} [itD]).items "d").map QueueItem.status ≠
        some .PENDING
    ∧ (load_from_redis {} [itD]).active_downloads = ["d"]
    ∧ (load_from_redis {} [itD]).priority_queue = [] := by decide

theorem loadItem_facts (a : EnhancedQueueManager) (x : QueueItem)
    (iid : String) :
    (loadItem a x).items = dictSet a.items x.id x
    ∧ (iid ∈ (loadItem a x).active_downloads ↔
        (iid ∈ a.active_downloads ∨ (iid = x.id ∧ x.status = .DOWNLOADING)))
    ∧ (iid ∈ (loadItem a x).priority_queue ↔
        (iid ∈ a.priority_queue ∨ (iid = x.id ∧ x.status = .PENDING))) := by
  unfold loadItem
  by_cases h1 : x.status = QueueStatus.PENDING
  · simp [h1]
  · by_cases h2 : x.status = QueueStatus.DOWNLOADING
    · simp [h1, h2]
    · simp [h1, h2]

theorem load_untouched (persisted : List QueueItem)
    (a : EnhancedQueueManager) (iid : String)
    (h : ∀ it ∈ persisted, it.id ≠ iid) :
    dictGet (load_from_redis a persisted).items iid = dictGet a.items iid
    ∧ (iid ∈ (load_from_redis a persisted).active_downloads ↔
        iid ∈ a.active_downloads)
    ∧ (iid ∈ (load_from_redis a persisted).priority_queue ↔
        iid ∈ a.priority_queue) := by
  induction persisted generalizing a with
  | nil => exact ⟨rfl, Iff.rfl, Iff.rfl⟩
  | cons x xs ih =>
    have hx : x.id ≠ iid := h x (List.mem_cons_self x xs)
    have hxs : ∀ it ∈ xs, it.id ≠ iid := fun it hit =>
      h it (List.mem_cons_of_mem x hit)
    have hstep := loadItem_facts a x iid
    have hrest := ih (loadItem a x) hxs
    have hne : iid ≠ x.id := fun e => hx e.symm
    refine ⟨?_, ?_, ?_⟩
    · rw [show load_from_redis a (x :: xs) =
        load_from_redis (loadItem a x) xs from rfl]
      rw [hrest.1, hstep.1, dictGet_set_ne _ _ _ _ hne]
    · rw [show load_from_redis a (x :: xs) =
        load_from_redis (loadItem a x) xs from rfl]
      rw [hrest.2.1, hstep.2.1]
      simp [hne]
    · rw [show load_from_redis a (x :: xs) =
        load_from_redis (loadItem a x) xs from rfl]
      rw [hrest.2.2, hstep.2.2]
      simp [hne]

theorem load_mem_general (persisted : List QueueItem)
    (a : EnhancedQueueManager)
    (hnd : (persisted.map QueueItem.id).Nodup)
    (it : QueueItem) (hmem : it ∈ persisted) :
    dictGet (load_from_redis a persisted).items it.id = some it
    ∧ (it.id ∈ (load_from_redis a persisted).active_downloads ↔
        (it.id ∈ a.active_downloads ∨ it.status = .DOWNLOADING))
    ∧ (it.id ∈ (load_from_redis a persisted).priority_queue ↔
        (it.id ∈ a.priority_queue ∨ it.status = .PENDING)) := by
  induction persisted generalizing a with
  | nil => cases hmem
  | cons x xs ih =>
    have hnd' : (xs.map QueueItem.id).Nodup := (List.nodup_cons.mp hnd).2
    have hxnot : x.id ∉ xs.map QueueItem.id := (List.nodup_cons.mp hnd).1
    rw [show load_from_redis a (x :: xs) =
      load_from_redis (loadItem a x) xs from rfl]
    rcases List.mem_cons.mp hmem with hx | hxs
    · subst hx
      have hunt := load_untouched xs (loadItem a it) it.id
        (fun it' hit' => fun e =>
          hxnot (e ▸ List.mem_map_of_mem QueueItem.id hit'))
      have hstep := loadItem_facts a it it.id
      refine ⟨?_, ?_, ?_⟩
      · rw [hunt.1, hstep.1, dictGet_set_self]
      · rw [hunt.2.1, hstep.2.1]
        simp
      · rw [hunt.2.2, hstep.2.2]
        simp
    · have hne : it.id ≠ x.id := by
        intro e
        exact hxnot (e ▸ List.mem_map_of_mem QueueItem.id hxs)
      have hstep := loadItem_facts a x it.id
      have hrec := ih (loadItem a x) hnd' hxs
      refine ⟨hrec.1, ?_, ?_⟩
      · rw [hrec.2.1, hstep.2.1]
        simp [hne]
      · rw [hrec.2.2, hstep.2.2]
        simp [hne]

/-- C2 amended: restoring from the persisted store keeps every item's
persisted status and `started_at` unchanged; an item persisted in
DOWNLOADING is placed into `active_downloads` (still DOWNLOADING, no
demotion, `started_at` intact) and exactly the items persisted in
PENDING are put on the pending queue. -/
theorem C2_load_keeps_status (persisted : List QueueItem)
    (hnd : (persisted.map QueueItem.id).Nodup)
    (it : QueueItem) (hmem : it ∈ persisted) :
    dictGet (load_from_redis {} persisted).items it.id = some it
    ∧ (it.id ∈ (load_from_redis {} persisted).active_downloads ↔
        it.status = .DOWNLOADING)
    ∧ (it.id ∈ (load_from_redis {} persisted).priority_queue ↔
        it.status = .PENDING) := by
  have h := load_mem_general persisted {} hnd it hmem
  refine ⟨h.1, ?_, ?_⟩
  · rw [h.2.1]
    simp [EnhancedQueueManager.active_downloads]
  · rw [h.2.2]
    simp [EnhancedQueueManager.priority_queue]

/-- C2 witness: loading the singleton store of the DOWNLOADING item. -/
theorem C2_load_keeps_status_witness :
    dictGet (load_from_redis {} [itD]).items itD.id = some itD
    ∧ (itD.id ∈ (load_from_redis {} [itD]).active_downloads ↔
        itD.status = .DOWNLOADING)
    ∧ (itD.id ∈ (load_from_redis {} [itD]).priority_queue ↔
        itD.status = .PENDING) :=
  C2_load_keeps_status [itD] (by simp) itD (by simp)

/-- C3: after `pause_item` sets an item to PAUSED, `get_next_item` still
pops it from the heap, admits it and returns it as DOWNLOADING — the
scheduler has no PAUSED guard in its admission loop. -/
theorem C3_paused_item_admitted :
    (dictGet c3_paused.items "https://site.example/v/1#100").map
        QueueItem.status = some .PAUSED
    ∧ c3_next.1.map QueueItem.id = some "https://site.example/v/1#100"
    ∧ c3_next.1.map QueueItem.status = some .DOWNLOADING
    ∧ c3_next.2.active_downloads = ["https://site.example/v/1#100"] := by
  decide

/-- C4 counterexample: on the COMPLETED item, `pause_item` rewrites the
status to PAUSED and `cancel_item` rewrites it to CANCELLED — terminal
states are not preserved. -/
theorem C4_terminal_mutated_counterexample :
    itC.status = .COMPLETED
    ∧ (dictGet (pause_item mC "a").items "a").map QueueItem.status =
        some .PAUSED
    ∧ (dictGet (pause_item mC "a").items "a").map QueueItem.status ≠
        some .COMPLETED
    ∧ (cancel_item mC "a" 60).1 = true
    ∧ (dictGet (cancel_item mC "a" 60).2.items "a").map QueueItem.status =
        some .CANCELLED := by decide

theorem pause_item_spec (mgr : EnhancedQueueManager) (iid : String)
    (item : QueueItem) (h : dictGet mgr.items iid = some item) :
    dictGet (pause_item mgr iid).items iid =
      some ({ item with status := .PAUSED }) := by
  unfold pause_item
  rw [h]
  exact dictGet_set_self _ _ _

theorem cancel_item_spec (mgr : EnhancedQueueManager) (iid : String)
    (item : QueueItem) (now : Nat) (h : dictGet mgr.items iid = some item) :
    (cancel_item mgr iid now).1 = true
    ∧ dictGet (cancel_item mgr iid now).2.items iid =
      some ({ item with status := .CANCELLED, completed_at := some now }) := by
  unfold cancel_item
  rw [h]
  constructor
  · rfl
  · by_cases hc : mgr.active_downloads.contains iid = true
    · simp only [hc, if_true]
      exact dictGet_set_self _ _ _
    · simp only [hc, if_false]
      exact dictGet_set_self _ _ _

/-- C4 amended: `pause_item` and `cancel_item` apply to any existing
item with no status guard: whatever the prior status — terminal states
included — pause sets PAUSED, and cancel returns True, sets CANCELLED
and overwrites `completed_at` with the current time. -/
theorem C4_pause_cancel_unguarded (mgr : EnhancedQueueManager)
    (iid : String) (item : QueueItem) (now : Nat)
    (h : dictGet mgr.items iid = some item) :
    dictGet (pause_item mgr iid).items iid =
      some ({ item with status := .PAUSED })
    ∧ (cancel_item mgr iid now).1 = true
    ∧ dictGet (cancel_item mgr iid now).2.items iid =
      some ({ item with status := .CANCELLED, completed_at := some now }) :=
  ⟨pause_item_spec mgr iid item h,
   (cancel_item_spec mgr iid item now h).1,
   (cancel_item_spec mgr iid item now h).2⟩

/-- C4 witness: the COMPLETED item is paused and cancelled. -/
theorem C4_pause_cancel_unguarded_witness :
    dictGet (pause_item mC "a").items "a" =
      some ({ itC with status := .PAUSED })
    ∧ (cancel_item mC "a" 60).1 = true
    ∧ dictGet (cancel_item mC "a" 60).2.items "a" =
      some ({ itC with status := .CANCELLED, completed_at := some 60 }) :=
  C4_pause_cancel_unguarded mC "a" itC 60 rfl

/-- C5 counterexample: a second `cancel_item` on the CANCELLED item (its
first cancel stamped `completed_at = 60`) returns True and keeps status
CANCELLED but overwrites `completed_at` to the new time 70, so the
item's state is not left unchanged. -/
theorem C5_second_cancel_counterexample :
    itX.status = .CANCELLED
    ∧ (cancel_item mX "x" 70).1 = true
    ∧ (dictGet (cancel_item mX "x" 70).2.items "x").map QueueItem.status =
        some .CANCELLED
    ∧ (dictGet (cancel_item mX "x" 70).2.items "x").map
        QueueItem.completed_at = some (some 70)
    ∧ dictGet (cancel_item mX "x" 70).2.items "x" ≠ some itX := by decide

/-- C5 amended: a second cancel of a CANCELLED item returns True and
leaves every field unchanged except `completed_at`, which it overwrites
with the current time. -/
theorem C5_cancel_updates_completed_at (mgr : EnhancedQueueManager)
    (iid : String) (item : QueueItem) (now : Nat)
    (h : dictGet mgr.items iid = some item)
    (hst : item.status = .CANCELLED) :
    (cancel_item mgr iid now).1 = true
    ∧ dictGet (cancel_item mgr iid now).2.items iid =
      some ({ item with completed_at := some now }) := by
  have hs := cancel_item_spec mgr iid item now h
  have heq : ({ item with status := .CANCELLED, completed_at := some now }
      : QueueItem) = { item with completed_at := some now } := by
    cases item
    simp only at hst
    rw [hst]
  exact ⟨hs.1, heq ▸ hs.2⟩

/-- C5 witness: re-cancelling the CANCELLED item at time 70. -/
theorem C5_cancel_updates_completed_at_witness :
    (cancel_item mX "x" 70).1 = true
    ∧ dictGet (cancel_item mX "x" 70).2.items "x" =
      some ({ itX with completed_at := some 70 }) :=
  C5_cancel_updates_completed_at mX "x" itX 70 rfl rfl

theorem bwGetD_not_mem (l : List (String × Int)) (k : String)
    (h : k ∉ l.map Prod.fst) : bwGetD l k = 0 := by
  unfold bwGetD dictGet
  have : List.find? (fun p => decide (p.1 = k)) l = none := by
    rw [List.find?_eq_none]
    intro x hx
    simp
    intro e
    exact h (e ▸ List.mem_map_of_mem Prod.fst hx)
  rw [this]

theorem dictRemove_not_mem {α : Type} (l : List (String × α)) (k : String)
    (h : k ∉ l.map Prod.fst) : dictRemove l k = l := by
  unfold dictRemove
  rw [List.filter_eq_self]
  intro p hp
  simp
  intro e
  exact h (e ▸ List.mem_map_of_mem Prod.fst hp)

theorem dictGet_remove_self {α : Type} (l : List (String × α))
    (k : String) : dictGet (dictRemove l k) k = none := by
  unfold dictGet dictRemove
  have h : List.find? (fun p => decide (p.1 = k))
      (l.filter (fun p => decide (p.1 ≠ k))) = none := by
    rw [List.find?_eq_none]
    intro x hx
    have := (List.mem_filter.mp hx).2
    simp at this ⊢
    exact this
  rw [h]

theorem bwGetD_cons_self (p : String × Int) (rest : List (String × Int)) :
    bwGetD (p :: rest) p.1 = p.2 := by
  unfold bwGetD dictGet
  rw [List.find?_cons_of_pos _ (by simp)]

theorem sumVals_cons (p : String × Int) (rest : List (String × Int)) :
    sumVals (p :: rest) = p.2 + sumVals rest := by
  simp [sumVals]

theorem sumVals_dictRemove (l : List (String × Int)) (k : String)
    (hnd : (l.map Prod.fst).Nodup) :
    sumVals (dictRemove l k) = sumVals l - bwGetD l k := by
  induction l with
  | nil => simp [dictRemove, sumVals, bwGetD, dictGet]
  | cons p rest ih =>
    have hnotin : p.1 ∉ rest.map Prod.fst := (List.nodup_cons.mp hnd).1
    have hnd' : (rest.map Prod.fst).Nodup := (List.nodup_cons.mp hnd).2
    by_cases hp : p.1 = k
    · subst hp
      have h1 : dictRemove (p :: rest) p.1 = dictRemove rest p.1 := by
        unfold dictRemove
        rw [List.filter_cons_of_neg (by simp)]
      rw [h1, dictRemove_not_mem rest p.1 hnotin, bwGetD_cons_self,
        sumVals_cons]
      ring
    · have h1 : dictRemove (p :: rest) k = p :: dictRemove rest k := by
        unfold dictRemove
        rw [List.filter_cons_of_pos (by simp; exact hp)]
      have h2 : bwGetD (p :: rest) k = bwGetD rest k := by
        unfold bwGetD dictGet
        rw [List.find?_cons_of_neg _ (by simp; exact hp)]
      rw [h1, h2, sumVals_cons, sumVals_cons, ih hnd']
      ring

theorem sumVals_dictSet (l : List (String × Int)) (k : String) (v : Int)
    (hnd : (l.map Prod.fst).Nodup) :
    sumVals (dictSet l k v) = sumVals l - bwGetD l k + v := by
  unfold dictSet
  have h1 : sumVals (l.filter (fun p => decide (p.1 ≠ k)) ++ [(k, v)]) =
      sumVals (l.filter (fun p => decide (p.1 ≠ k))) + v := by
    simp [sumVals]
  rw [h1]
  have h2 : l.filter (fun p => decide (p.1 ≠ k)) = dictRemove l k := rfl
  rw [h2, sumVals_dictRemove l k hnd]

theorem nodup_keys_dictRemove {α : Type} (l : List (String × α))
    (k : String) (hnd : (l.map Prod.fst).Nodup) :
    ((dictRemove l k).map Prod.fst).Nodup :=
  List.Nodup.sublist (List.Sublist.map Prod.fst (List.filter_sublist l)) hnd

theorem nodup_keys_dictSet {α : Type} (l : List (String × α)) (k : String)
    (v : α) (hnd : (l.map Prod.fst).Nodup) :
    ((dictSet l k v).map Prod.fst).Nodup := by
  unfold dictSet
  rw [List.map_append, List.nodup_append]
  refine ⟨nodup_keys_dictRemove l k hnd, List.nodup_singleton k, ?_⟩
  intro x hx hx2
  simp at hx2
  subst hx2
  rcases List.mem_map.mp hx with ⟨p, hp, he⟩
  have := (List.mem_filter.mp hp).2
  simp at this
  exact this (by rw [he])

theorem bwGetD_nonneg (l : List (String × Int)) (k : String)
    (h : ∀ p ∈ l, 0 ≤ p.2) : 0 ≤ bwGetD l k := by
  unfold bwGetD dictGet
  cases hf : List.find? (fun p => decide (p.1 = k)) l with
  | none => simp
  | some p => exact h p (List.mem_of_find?_eq_some hf)

theorem bwStep_inv (cap : Int) (bm : BandwidthManager) (op : BWOp)
    (hinv : bwInv cap bm) (hop : bwNonneg op = true) :
    bwInv cap (bwStep bm op) := by
  obtain ⟨hlim, halloc, hnd, hpos, hsum⟩ := hinv
  cases op with
  | alloc i a =>
    unfold bwStep BandwidthManager.allocate
    by_cases hca : bm.can_allocate i a = true
    · simp only [hca, if_true]
      refine ⟨hlim, rfl, nodup_keys_dictSet _ _ _ hnd, ?_, ?_⟩
      · intro p hp
        unfold dictSet at hp
        rcases List.mem_append.mp hp with hpf | hps
        · exact hpos p (List.mem_of_mem_filter hpf)
        · rw [List.mem_singleton.mp hps]
          exact of_decide_eq_true hop
      · rw [sumVals_dictSet _ _ _ hnd]
        unfold BandwidthManager.can_allocate at hca
        rw [hlim] at hca
        simp at hca
        omega
    · simp only [hca, if_false]
      exact ⟨hlim, halloc, hnd, hpos, hsum⟩
  | release i =>
    unfold bwStep BandwidthManager.release
    by_cases hm : dictMem bm.active_downloads i = true
    · simp only [hm, if_true]
      refine ⟨hlim, rfl, nodup_keys_dictRemove _ _ hnd, ?_, ?_⟩
      · intro p hp
        exact hpos p (List.mem_of_mem_filter hp)
      · rw [sumVals_dictRemove _ _ hnd]
        have := bwGetD_nonneg bm.active_downloads i hpos
        omega
    · simp only [hm, if_false]
      exact ⟨hlim, halloc, hnd, hpos, hsum⟩

theorem bwRun_inv (cap : Int) (ops : List BWOp) (bm : BandwidthManager)
    (hinv : bwInv cap bm) (hops : ∀ op ∈ ops, bwNonneg op = true) :
    bwInv cap (bwRun bm ops) := by
  induction ops generalizing bm with
  | nil => exact hinv
  | cons op ops ih =>
    exact ih (bwStep bm op)
      (bwStep_inv cap bm op hinv (hops op (List.mem_cons_self op ops)))
      (fun o ho => hops o (List.mem_cons_of_mem op ho))

/-- C7: with a cap set, `allocate` succeeds exactly when the ledger
total excluding the item's own existing reservation plus the requested
amount fits under the cap, `release` removes the item's reservation, and
every sequence of allocate/release calls starting from the fresh ledger
keeps the sum of active reservations at or below the cap. -/
theorem C7_bandwidth_cap_invariant (cap : Int) (ops : List BWOp)
    (hcap : 0 ≤ cap) (hops : ∀ op ∈ ops, bwNonneg op = true) :
    sumVals (bwRun { total_limit := some cap } ops).active_downloads ≤ cap
    ∧ (∀ (bm : BandwidthManager) (i : String) (a : Int),
        bm.total_limit = some cap →
        ((bm.allocate i a).1 = true ↔
          bm.allocated - bwGetD bm.active_downloads i + a ≤ cap))
    ∧ (∀ (bm : BandwidthManager) (i : String),
        dictGet (bm.release i).active_downloads i = none) := by
  refine ⟨?_, ?_, ?_⟩
  · have h0 : bwInv cap { total_limit := some cap } := by
      refine ⟨rfl, rfl, by simp, by simp, ?_⟩
      simpa [sumVals] using hcap
    exact (bwRun_inv cap ops _ h0 hops).2.2.2.2
  · intro bm i a hlim
    unfold BandwidthManager.allocate BandwidthManager.can_allocate
    rw [hlim]
    by_cases hle : bm.allocated - bwGetD bm.active_downloads i + a ≤ cap
    · simp [hle]
    · simp [hle]
  · intro bm i
    unfold BandwidthManager.release
    by_cases hm : dictMem bm.active_downloads i = true
    · rw [if_pos hm]
      exact dictGet_remove_self _ _
    · rw [if_neg hm]
      unfold dictMem at hm
      cases hd : dictGet bm.active_downloads i with
      | none => rfl
      | some v => simp [hd] at hm

/-- C7 witness: running allocate(a,600), allocate(b,500), release(a),
allocate(b,700) against a 1000-cap ledger keeps the reservation sum at
or below 1000. -/
theorem C7_bandwidth_cap_invariant_witness :
    sumVals (bwRun { total_limit := some 1000 } c7ops).active_downloads ≤
      1000 :=
  (C7_bandwidth_cap_invariant 1000 c7ops (by decide) (by decide)).1

end Grabby
